import Mathlib

/-!
Verification development for `bambu2prusa.py`, a CLI tool converting Bambu
3mf packages to Prusa 3mf packages.  The model-file text pipeline
(`model_convert_re`, lines 114-162 of the source) applies six textual
rewrites with Python `re.sub` / `str.replace` before parsing; we embed the
rewrites as scanners over `List Char` with Python's leftmost, greedy,
global substitution semantics, and embed the surrounding orchestration
(`convert`, `inject_bobject2pobject`, `generate3mf_file`, `cleanup`) as
explicit state-passing functions.
-/

namespace B2P

/-- A single left-to-right substitution pass, as performed by Python
`re.sub(pattern, repl, s)` and `str.replace`: at each position try the
matcher; on a match emit the replacement and resume after the matched
span, otherwise emit the character and move one position right.  The
matcher returns the replacement text and the matched length `n`; every
matcher used below only matches at a nonempty literal head, so `n ≥ 1`
and consuming `n` characters of `c :: t` is `t.drop (n - 1)`.  Structural
recursion on a fuel bounded by the string length keeps the definition
executable. -/
def scanSubF (M : List Char → Option (List Char × Nat)) :
    Nat → List Char → List Char
  | _, [] => []
  | 0, s => s
  | fuel + 1, c :: t =>
    match M (c :: t) with
    | some (r, n) => r ++ scanSubF M fuel (t.drop (n - 1))
    | none => c :: scanSubF M fuel t

/-- Run one substitution pass over the whole string. -/
def scanSub (M : List Char → Option (List Char × Nat)) (s : List Char) :
    List Char :=
  scanSubF M s.length s

theorem scanSubF_fuel (M : List Char → Option (List Char × Nat)) :
    ∀ (fuel fuel' : Nat) (s : List Char), s.length ≤ fuel → s.length ≤ fuel' →
      scanSubF M fuel s = scanSubF M fuel' s := by
  intro fuel
  induction fuel with
  | zero =>
    intro fuel' s hs _
    have : s = [] := List.length_eq_zero.mp (Nat.le_zero.mp hs)
    subst this
    cases fuel' <;> rfl
  | succ n ih =>
    intro fuel' s hs hs'
    cases s with
    | nil => cases fuel' <;> rfl
    | cons c t =>
      cases fuel' with
      | zero => exact absurd hs' (by simp)
      | succ m =>
        have ht : t.length ≤ n := by simp at hs; omega
        have ht' : t.length ≤ m := by simp at hs'; omega
        simp only [scanSubF]
        cases hM : M (c :: t) with
        | none => simp [ih m t ht ht']
        | some p =>
          obtain ⟨r, k⟩ := p
          have hd : (t.drop (k - 1)).length ≤ n := by
            have := List.length_drop (k - 1) t
            omega
          have hd' : (t.drop (k - 1)).length ≤ m := by
            have := List.length_drop (k - 1) t
            omega
          simp [ih m _ hd hd']

/-- Step lemma: no match at the head. -/
theorem scanSub_cons_none {M : List Char → Option (List Char × Nat)}
    {c : Char} {t : List Char} (h : M (c :: t) = none) :
    scanSub M (c :: t) = c :: scanSub M t := by
  show scanSubF M (t.length + 1) (c :: t) = c :: scanSubF M t.length t
  simp only [scanSubF, h]

/-- Step lemma: a match of length `n` at the head. -/
theorem scanSub_cons_some {M : List Char → Option (List Char × Nat)}
    {c : Char} {t r : List Char} {n : Nat}
    (h : M (c :: t) = some (r, n)) :
    scanSub M (c :: t) = r ++ scanSub M (t.drop (n - 1)) := by
  show scanSubF M (t.length + 1) (c :: t) = r ++ scanSubF M (t.drop (n - 1)).length (t.drop (n - 1))
  simp only [scanSubF, h]
  congr 1
  exact scanSubF_fuel M t.length _ _ (by simp [List.length_drop]) le_rfl

/-- If the matcher fires nowhere along a string, the pass is the
identity. -/
theorem scanSub_id {M : List Char → Option (List Char × Nat)} :
    ∀ {s : List Char}, (∀ i, M (s.drop i) = none) → scanSub M s = s := by
  intro s
  induction s with
  | nil => intro _; rfl
  | cons c t ih =>
    intro h
    have h0 : M (c :: t) = none := h 0
    rw [scanSub_cons_none h0, ih (fun i => h (i + 1))]

/-- If the matcher fires at no position inside the prefix block `a`,
scanning `a ++ b` emits `a` verbatim and proceeds with `b`. -/
theorem scanSub_append_skip {M : List Char → Option (List Char × Nat)} :
    ∀ {a b : List Char}, (∀ i, i < a.length → M ((a ++ b).drop i) = none) →
      scanSub M (a ++ b) = a ++ scanSub M b := by
  intro a
  induction a with
  | nil => intro b _; rfl
  | cons c t ih =>
    intro b h
    have h0 : M (c :: (t ++ b)) = none := by
      have := h 0 (by simp)
      simpa using this
    show scanSub M (c :: (t ++ b)) = c :: (t ++ scanSub M b)
    rw [scanSub_cons_none h0]
    congr 1
    exact ih (fun i hi => by simpa using h (i + 1) (by simpa using Nat.succ_lt_succ hi))

/-- `occurs pat s` holds when the literal `pat` occurs as a contiguous
substring of `s`. -/
def occurs (pat : List Char) : List Char → Bool
  | [] => pat.isPrefixOf []
  | c :: t => pat.isPrefixOf (c :: t) || occurs pat t

theorem occurs_iff {pat : List Char} :
    ∀ {s : List Char}, occurs pat s = true ↔ ∃ i, pat <+: s.drop i := by
  intro s
  induction s with
  | nil =>
    simp only [occurs, List.isPrefixOf_iff_prefix, List.drop_nil]
    exact ⟨fun h => ⟨0, h⟩, fun ⟨_, h⟩ => h⟩
  | cons c t ih =>
    simp only [occurs, Bool.or_eq_true, List.isPrefixOf_iff_prefix, ih]
    constructor
    · rintro (h | ⟨i, h⟩)
      · exact ⟨0, h⟩
      · exact ⟨i + 1, h⟩
    · rintro ⟨i, h⟩
      cases i with
      | zero => exact Or.inl h
      | succ j => exact Or.inr ⟨j, h⟩

theorem not_prefix_drop {pat s : List Char} (h : occurs pat s = false)
    (i : Nat) : ¬ pat <+: s.drop i := by
  intro hp
  have : occurs pat s = true := occurs_iff.mpr ⟨i, hp⟩
  simp [this] at h

/-- A prefix of `x ++ y` no longer than `x` is a prefix of `x`. -/
theorem prefix_short_left {p x y : List Char} (h : p <+: x ++ y)
    (hl : p.length ≤ x.length) : p <+: x :=
  List.prefix_of_prefix_length_le h (List.prefix_append x y) hl

/-- A prefix of `x ++ y` longer than `x` starts with `x` and its remainder
is a prefix of `y`. -/
theorem prefix_long_split {p x y : List Char} (h : p <+: x ++ y)
    (hl : x.length < p.length) : x <+: p ∧ p.drop x.length <+: y := by
  have hxp : x <+: p :=
    List.prefix_of_prefix_length_le (List.prefix_append x y) h (le_of_lt hl)
  refine ⟨hxp, ?_⟩
  obtain ⟨k, hk⟩ := hxp
  have hdk : p.drop x.length = k := by rw [← hk, List.drop_left]
  rw [hdk]
  rw [← hk] at h
  exact (List.prefix_append_right_inj x).mp h

/-- A suffix of `x ++ y` no longer than `y` is a suffix of `y`. -/
theorem suffix_short_right {t x y : List Char} (h : t <:+ x ++ y)
    (hl : t.length ≤ y.length) : t <:+ y := by
  have := List.suffix_iff_eq_drop.mp h
  rw [this]
  have hlen : (x ++ y).length - t.length = x.length + (y.length - t.length) := by
    simp [List.length_append]; omega
  rw [hlen, ← List.drop_drop, List.drop_left]
  exact List.drop_suffix _ y

/-- Absence of a pattern in two blocks extends to their concatenation
provided no occurrence straddles the boundary. -/
theorem occurs_append_eq_false {pat x y : List Char}
    (hx : occurs pat x = false) (hy : occurs pat y = false)
    (hcross : ∀ j, 0 < j → j < pat.length →
      ¬ (pat.take j <:+ x ∧ pat.drop j <+: y)) :
    occurs pat (x ++ y) = false := by
  by_contra hocc
  rw [Bool.not_eq_false] at hocc
  obtain ⟨i, hp⟩ := occurs_iff.mp hocc
  by_cases hi : x.length ≤ i
  · rw [List.drop_append_eq_append_drop, List.drop_eq_nil_of_le hi,
      List.nil_append] at hp
    exact not_prefix_drop hy _ hp
  · push_neg at hi
    rw [List.drop_append_of_le_length (le_of_lt hi)] at hp
    by_cases hlen : pat.length ≤ (x.drop i).length
    · exact not_prefix_drop hx i (prefix_short_left hp hlen)
    · push_neg at hlen
      obtain ⟨h1, h2⟩ := prefix_long_split hp hlen
      have hj : (x.drop i).length = x.length - i := List.length_drop i x
      have htake : pat.take (x.drop i).length = x.drop i := by
        have := List.prefix_iff_eq_take.mp h1
        exact this.symm
      refine hcross (x.drop i).length ?_ hlen ⟨?_, h2⟩
      · omega
      · rw [htake]; exact List.drop_suffix i x

/-- Positions inside the block `a` can hold no occurrence of `pat` when
`pat` does not occur in `a` and no tail of `pat` can begin `rest`. -/
theorem no_prefix_in_block {pat a rest : List Char}
    (ha : occurs pat a = false)
    (hcross : ∀ j, 0 < j → j < pat.length →
      ¬ (pat.take j <:+ a ∧ pat.drop j <+: rest)) :
    ∀ i, i < a.length → ¬ pat <+: ((a ++ rest).drop i) := by
  intro i hi hp
  rw [List.drop_append_of_le_length (le_of_lt hi)] at hp
  by_cases hlen : pat.length ≤ (a.drop i).length
  · exact not_prefix_drop ha i (prefix_short_left hp hlen)
  · push_neg at hlen
    obtain ⟨h1, h2⟩ := prefix_long_split hp hlen
    have hj : (a.drop i).length = a.length - i := List.length_drop i a
    have htake : pat.take (a.drop i).length = a.drop i :=
      (List.prefix_iff_eq_take.mp h1).symm
    refine hcross (a.drop i).length (by omega) hlen ⟨?_, h2⟩
    rw [htake]
    exact List.drop_suffix i a

/-- Greatest index of a `'"'` character in the list. -/
def lastQuote : List Char → Option Nat
  | [] => none
  | c :: t =>
    match lastQuote t with
    | some i => some (i + 1)
    | none => if c = '"' then some 0 else none

/-- Matcher for `re.sub(r'xmlns=[^=]+"', '', content)` (line 131): the
literal `xmlns=`, then a maximal run free of `=`, backtracking greedily to
the last `"` inside the run, which must be preceded by at least one run
character. -/
def matchXmlns (s : List Char) : Option (List Char × Nat) :=
  if "xmlns=".toList.isPrefixOf s then
    let run := (s.drop 6).takeWhile (fun c => c ≠ '=')
    match lastQuote run with
    | some i => if 1 ≤ i then some ([], 6 + i + 1) else none
    | none => none
  else none

/-- Matcher for `re.sub(r'p:UUID[^"]+"[^"]+"', '', ...)` (line 133): the
literal, a nonempty quote-free run, a quote, another nonempty quote-free
run, and a closing quote. -/
def matchPUUID (s : List Char) : Option (List Char × Nat) :=
  if "p:UUID".toList.isPrefixOf s then
    let r1 := (s.drop 6).takeWhile (fun c => c ≠ '"')
    if r1.length = 0 then none else
    match (s.drop 6).drop r1.length with
    | '"' :: t3 =>
      let r2 := t3.takeWhile (fun c => c ≠ '"')
      if r2.length = 0 then none else
      match t3.drop r2.length with
      | '"' :: _ => some ([], 6 + r1.length + 1 + r2.length + 1)
      | _ => none
    | _ => none
  else none

/-- `[\w\d-]` of line 135, restricted to ASCII (encoding names are
ASCII). -/
def isWordHy (c : Char) : Bool := c.isAlphanum || c = '_' || c = '-'

/-- Matcher for `re.sub(r'encoding=[\'"][\w\d-]+[\'"]', "", ...)`
(line 135). -/
def matchEncoding (s : List Char) : Option (List Char × Nat) :=
  if "encoding=".toList.isPrefixOf s then
    match s.drop 9 with
    | q :: t1 =>
      if q = '"' ∨ q = '\'' then
        let r := t1.takeWhile isWordHy
        if r.length = 0 then none else
        match t1.drop r.length with
        | q2 :: _ =>
          if q2 = '"' ∨ q2 = '\'' then some ([], 9 + 1 + r.length + 1) else none
        | [] => none
      else none
    | [] => none
  else none

/-- Target attribute name substituted for `paint_color` (line 137). -/
def mmuName : List Char := "slic3rpe:mmu_segmentation".toList

/-- Matcher for `content.replace("paint_color", "slic3rpe:mmu_segmentation")`
(line 137): a literal string replacement. -/
def matchPaintColor (s : List Char) : Option (List Char × Nat) :=
  if "paint_color".toList.isPrefixOf s then some (mmuName, 11) else none

/-- Whether the list begins with `'>'`. -/
def headIsGt : List Char → Bool
  | [] => false
  | c :: _ => c = '>'

/-- Greatest index `i` with `'"'` at `i` immediately followed by `'>'`. -/
def lastQuoteGt : List Char → Option Nat
  | [] => none
  | c :: t =>
    match lastQuoteGt t with
    | some i => some (i + 1)
    | none => if c = '"' && headIsGt t then some 0 else none

/-- The replacement root tag of line 139, declaring exactly the Prusa
core namespace, the slic3rpe extension namespace, the millimeter unit and
the en-US language. -/
def prusaModelTag : List Char :=
  ("<model unit=\"millimeter\" xml:lang=\"en-US\" xmlns=\"http://schemas.microsoft.com/3dmanufacturing/core/2015/02\" xmlns:slic3rpe=\"http://schemas.slic3r.org/3mf/2017/06\">").toList

/-- Matcher for `re.sub(r'<model[ ].*">', prusaModelTag, ...)` (line 139):
the literal `<model `, then `.*` (greedy, not crossing a newline) up to
the last `">` on the same line. -/
def matchModelTag (s : List Char) : Option (List Char × Nat) :=
  if "<model ".toList.isPrefixOf s then
    let line := (s.drop 7).takeWhile (fun c => c ≠ '\n')
    match lastQuoteGt line with
    | some i => some (prusaModelTag, 7 + i + 2)
    | none => none
  else none

/-- Matcher for `re.sub("paint_seam=\"[0-9A-Z]*\"", "", ...)` (line 141). -/
def matchPaintSeam (s : List Char) : Option (List Char × Nat) :=
  if "paint_seam=\"".toList.isPrefixOf s then
    let r := (s.drop 12).takeWhile (fun c => c.isDigit || c.isUpper)
    match (s.drop 12).drop r.length with
    | '"' :: _ => some ([], 12 + r.length + 1)
    | _ => none
  else none

/-- Line 131: strip the default-namespace declaration. -/
def rem_xmlns (s : List Char) : List Char := scanSub matchXmlns s

/-- Line 133: strip `p:UUID` attributes. -/
def rem_pUUID (s : List Char) : List Char := scanSub matchPUUID s

/-- Line 135: strip encoding declarations. -/
def rem_encoding (s : List Char) : List Char := scanSub matchEncoding s

/-- Line 137: rename `paint_color` to the slic3rpe segmentation name. -/
def rem_paint_color (s : List Char) : List Char := scanSub matchPaintColor s

/-- Line 139: rewrite the opening model tag to the Prusa declaration. -/
def add_slic3rpe (s : List Char) : List Char := scanSub matchModelTag s

/-- Line 141: strip the `paint_seam` attribute. -/
def rem_paint_seam (s : List Char) : List Char := scanSub matchPaintSeam s

/-- The full six-step textual normalization of `model_convert_re`
(lines 131-141), in source order. -/
def normalize (s : List Char) : List Char :=
  rem_paint_seam (add_slic3rpe (rem_paint_color (rem_encoding (rem_pUUID (rem_xmlns s)))))

theorem matchXmlns_trigger : ∀ (s : List Char) (p : List Char × Nat),
    matchXmlns s = some p → "xmlns=".toList <+: s := by
  intro s p h
  by_cases hp : "xmlns=".toList.isPrefixOf s
  · exact List.isPrefixOf_iff_prefix.mp hp
  · exfalso; unfold matchXmlns at h; rw [if_neg hp] at h; exact Option.noConfusion h

theorem matchPUUID_trigger : ∀ (s : List Char) (p : List Char × Nat),
    matchPUUID s = some p → "p:UUID".toList <+: s := by
  intro s p h
  by_cases hp : "p:UUID".toList.isPrefixOf s
  · exact List.isPrefixOf_iff_prefix.mp hp
  · exfalso; unfold matchPUUID at h; rw [if_neg hp] at h; exact Option.noConfusion h

theorem matchEncoding_trigger : ∀ (s : List Char) (p : List Char × Nat),
    matchEncoding s = some p → "encoding=".toList <+: s := by
  intro s p h
  by_cases hp : "encoding=".toList.isPrefixOf s
  · exact List.isPrefixOf_iff_prefix.mp hp
  · exfalso; unfold matchEncoding at h; rw [if_neg hp] at h; exact Option.noConfusion h

theorem matchPaintColor_trigger : ∀ (s : List Char) (p : List Char × Nat),
    matchPaintColor s = some p → "paint_color".toList <+: s := by
  intro s p h
  by_cases hp : "paint_color".toList.isPrefixOf s
  · exact List.isPrefixOf_iff_prefix.mp hp
  · exfalso; unfold matchPaintColor at h; rw [if_neg hp] at h; exact Option.noConfusion h

theorem matchModelTag_trigger : ∀ (s : List Char) (p : List Char × Nat),
    matchModelTag s = some p → "<model ".toList <+: s := by
  intro s p h
  by_cases hp : "<model ".toList.isPrefixOf s
  · exact List.isPrefixOf_iff_prefix.mp hp
  · exfalso; unfold matchModelTag at h; rw [if_neg hp] at h; exact Option.noConfusion h

theorem matchPaintSeam_trigger : ∀ (s : List Char) (p : List Char × Nat),
    matchPaintSeam s = some p → "paint_seam=\"".toList <+: s := by
  intro s p h
  by_cases hp : "paint_seam=\"".toList.isPrefixOf s
  · exact List.isPrefixOf_iff_prefix.mp hp
  · exfalso; unfold matchPaintSeam at h; rw [if_neg hp] at h; exact Option.noConfusion h

/-- A pass is the identity on strings free of its trigger literal. -/
theorem scanSub_id_of_no_occur {M : List Char → Option (List Char × Nat)}
    {lit s : List Char}
    (hM : ∀ s' p, M s' = some p → lit <+: s')
    (h : occurs lit s = false) : scanSub M s = s :=
  scanSub_id (fun i => by
    cases hMi : M (s.drop i) with
    | none => rfl
    | some p => exact absurd (hM _ _ hMi) (not_prefix_drop h i))

/-- A pass copies a leading block verbatim when the trigger literal does
not occur in the block and no occurrence of the literal straddles the
block boundary. -/
theorem scanSub_skip_block {M : List Char → Option (List Char × Nat)}
    {lit a rest : List Char}
    (hM : ∀ s' p, M s' = some p → lit <+: s')
    (ha : occurs lit a = false)
    (hcross : ∀ j, 0 < j → j < lit.length →
      ¬ (lit.take j <:+ a ∧ lit.drop j <+: rest)) :
    scanSub M (a ++ rest) = a ++ scanSub M rest :=
  scanSub_append_skip (fun i hi => by
    cases hMi : M ((a ++ rest).drop i) with
    | none => rfl
    | some p => exact absurd (hM _ _ hMi) (no_prefix_in_block ha hcross i hi))

/-- Decidable check: no strict tail of `lit` is a prefix of `mid`. -/
def noTailIn (lit mid : List Char) : Bool :=
  (List.range lit.length).all (fun j => j == 0 || !((lit.drop j).isPrefixOf mid))

/-- Decidable check: no strict head of `lit` is a suffix of `mid`. -/
def noHeadSuffixIn (lit mid : List Char) : Bool :=
  (List.range lit.length).all (fun j => j == 0 || !((lit.take j).isSuffixOf mid))

theorem cross_of_noTailIn {lit mid b : List Char}
    (hlen : lit.length ≤ mid.length + 1) (h : noTailIn lit mid = true) :
    ∀ j, 0 < j → j < lit.length → ¬ lit.drop j <+: (mid ++ b) := by
  intro j hj hjl hpre
  have hlen2 : (lit.drop j).length ≤ mid.length := by
    simp [List.length_drop]; omega
  have hmid : lit.drop j <+: mid := prefix_short_left hpre hlen2
  have hb := (List.all_eq_true.mp h) j (List.mem_range.mpr hjl)
  simp [Nat.pos_iff_ne_zero.mp hj] at hb
  have hT := List.isPrefixOf_iff_prefix.mpr hmid
  rw [hb] at hT
  exact Bool.false_ne_true hT

theorem cross_of_noTailIn' {lit mid : List Char}
    (h : noTailIn lit mid = true) :
    ∀ j, 0 < j → j < lit.length → ¬ lit.drop j <+: mid := by
  intro j hj hjl hpre
  have hb := (List.all_eq_true.mp h) j (List.mem_range.mpr hjl)
  simp [Nat.pos_iff_ne_zero.mp hj] at hb
  have hT := List.isPrefixOf_iff_prefix.mpr hpre
  rw [hb] at hT
  exact Bool.false_ne_true hT

theorem headSuffix_direct {lit mid : List Char}
    (h : noHeadSuffixIn lit mid = true) :
    ∀ j, 0 < j → j < lit.length → ¬ lit.take j <:+ mid := by
  intro j hj hjl hsuf
  have hb := (List.all_eq_true.mp h) j (List.mem_range.mpr hjl)
  simp [Nat.pos_iff_ne_zero.mp hj] at hb
  have hT := List.isSuffixOf_iff_suffix.mpr hsuf
  rw [hb] at hT
  exact Bool.false_ne_true hT

theorem headSuffix_of_append {lit a mid : List Char}
    (hlen : lit.length ≤ mid.length + 1) (h : noHeadSuffixIn lit mid = true) :
    ∀ j, 0 < j → j < lit.length → ¬ lit.take j <:+ (a ++ mid) := by
  intro j hj hjl hsuf
  have hlen2 : (lit.take j).length ≤ mid.length := by
    simp [List.length_take]; omega
  have hmid : lit.take j <:+ mid := suffix_short_right hsuf hlen2
  have hb := (List.all_eq_true.mp h) j (List.mem_range.mpr hjl)
  simp [Nat.pos_iff_ne_zero.mp hj] at hb
  have hT := List.isSuffixOf_iff_suffix.mpr hmid
  rw [hb] at hT
  exact Bool.false_ne_true hT

/-- Absence of a pattern around a concrete middle block, with the
boundary checks decidable on the middle block alone. -/
theorem occurs_sandwich_eq_false {L a mid b : List Char}
    (ha : occurs L a = false) (hb : occurs L b = false)
    (hmid : occurs L mid = false)
    (hlen : L.length ≤ mid.length + 1)
    (ht : noTailIn L mid = true) (hh : noHeadSuffixIn L mid = true) :
    occurs L (a ++ mid ++ b) = false := by
  have hmb : occurs L (mid ++ b) = false :=
    occurs_append_eq_false hmid hb
      (fun j h1 h2 hc => headSuffix_direct hh j h1 h2 hc.1)
  have hall : occurs L (a ++ (mid ++ b)) = false :=
    occurs_append_eq_false ha hmb
      (fun j h1 h2 hc => cross_of_noTailIn hlen ht j h1 h2 hc.2)
  simpa [List.append_assoc] using hall

/-- Step lemma at the head of a nonempty string, with the consumed length
given against the full string. -/
theorem scanSub_head_some {M : List Char → Option (List Char × Nat)}
    {s r : List Char} {n : Nat} (hn : 1 ≤ n) (hs : s ≠ [])
    (h : M s = some (r, n)) :
    scanSub M s = r ++ scanSub M (s.drop n) := by
  cases s with
  | nil => exact absurd rfl hs
  | cons c t =>
    rw [scanSub_cons_some h]
    obtain ⟨m, rfl⟩ := Nat.exists_eq_add_of_le hn
    simp [List.drop_succ_cons, Nat.add_comm]

theorem takeWhile_append_stop {p : Char → Bool} {x : List Char} {c : Char}
    {t : List Char} (hx : ∀ d ∈ x, p d = true) (hc : p c = false) :
    (x ++ c :: t).takeWhile p = x := by
  induction x with
  | nil => simp [List.takeWhile_cons, hc]
  | cons d x ih =>
    simp [List.takeWhile_cons, hx d (by simp)]
    exact ih (fun e he => hx e (by simp [he]))

/-- The literal heads of the six rewrites of lines 131-141. -/
def triggerLits : List (List Char) :=
  ["xmlns=".toList, "p:UUID".toList, "encoding=".toList,
   "paint_color".toList, "<model ".toList, "paint_seam=\"".toList]

/-- A context block is inert when none of the six rewrite literals occurs
in it, so every rewrite pass copies it verbatim. -/
def inert (s : List Char) : Prop := ∀ L ∈ triggerLits, occurs L s = false

/-- The painted-attribute pair of the C7 fixture, as source text. -/
def paintCore : List Char := "paint_color=\"FF0000\" paint_seam=\"01\"".toList

/-- The same span after the `paint_color` rename (line 137). -/
def mmuSeamMid : List Char :=
  "slic3rpe:mmu_segmentation=\"FF0000\" paint_seam=\"01\"".toList

/-- The same span after the `paint_seam` strip (line 141). -/
def mmuKept : List Char := "slic3rpe:mmu_segmentation=\"FF0000\" ".toList

/-- The seam attribute matched and removed by line 141. -/
def seamAttr : List Char := "paint_seam=\"01\"".toList

theorem rem_xmlns_c7 {a b : List Char} (ha : inert a) (hb : inert b) :
    rem_xmlns (a ++ paintCore ++ b) = a ++ paintCore ++ b :=
  scanSub_id_of_no_occur matchXmlns_trigger
    (occurs_sandwich_eq_false (ha _ (by decide)) (hb _ (by decide))
      (by decide) (by decide) (by decide) (by decide))

theorem rem_pUUID_c7 {a b : List Char} (ha : inert a) (hb : inert b) :
    rem_pUUID (a ++ paintCore ++ b) = a ++ paintCore ++ b :=
  scanSub_id_of_no_occur matchPUUID_trigger
    (occurs_sandwich_eq_false (ha _ (by decide)) (hb _ (by decide))
      (by decide) (by decide) (by decide) (by decide))

theorem rem_encoding_c7 {a b : List Char} (ha : inert a) (hb : inert b) :
    rem_encoding (a ++ paintCore ++ b) = a ++ paintCore ++ b :=
  scanSub_id_of_no_occur matchEncoding_trigger
    (occurs_sandwich_eq_false (ha _ (by decide)) (hb _ (by decide))
      (by decide) (by decide) (by decide) (by decide))

theorem rem_paint_color_c7 {a b : List Char} (ha : inert a) (hb : inert b) :
    rem_paint_color (a ++ paintCore ++ b) = a ++ mmuSeamMid ++ b := by
  have hLa : occurs "paint_color".toList a = false := ha _ (by decide)
  have hLb : occurs "paint_color".toList b = false := hb _ (by decide)
  have hpc : paintCore = "paint_color".toList ++ "=\"FF0000\" paint_seam=\"01\"".toList := by
    decide
  have hA : scanSub matchPaintColor (a ++ (paintCore ++ b)) =
      a ++ scanSub matchPaintColor (paintCore ++ b) :=
    scanSub_skip_block matchPaintColor_trigger hLa
      (fun j h1 h2 hc => cross_of_noTailIn (by decide) (by decide) j h1 h2 hc.2)
  have hm : matchPaintColor ("paint_color".toList ++
      ("=\"FF0000\" paint_seam=\"01\"".toList ++ b)) = some (mmuName, 11) := by
    unfold matchPaintColor
    rw [if_pos (List.isPrefixOf_iff_prefix.mpr (List.prefix_append _ _))]
  have hB : scanSub matchPaintColor (paintCore ++ b) =
      mmuName ++ scanSub matchPaintColor ("=\"FF0000\" paint_seam=\"01\"".toList ++ b) := by
    rw [hpc, List.append_assoc]
    rw [scanSub_head_some (by omega) (by simp) hm]
    have h11 : ("paint_color".toList).length = 11 := by decide
    rw [← h11, List.drop_left]
  have hC : scanSub matchPaintColor ("=\"FF0000\" paint_seam=\"01\"".toList ++ b) =
      "=\"FF0000\" paint_seam=\"01\"".toList ++ scanSub matchPaintColor b :=
    scanSub_skip_block matchPaintColor_trigger (by decide)
      (fun j h1 h2 hc => headSuffix_direct (by decide) j h1 h2 hc.1)
  have hD : scanSub matchPaintColor b = b :=
    scanSub_id_of_no_occur matchPaintColor_trigger hLb
  have hmu : mmuSeamMid = mmuName ++ "=\"FF0000\" paint_seam=\"01\"".toList := by decide
  show scanSub matchPaintColor (a ++ paintCore ++ b) = a ++ mmuSeamMid ++ b
  rw [List.append_assoc, hA, hB, hC, hD, hmu]
  simp [List.append_assoc]

theorem add_slic3rpe_c7 {a b : List Char} (ha : inert a) (hb : inert b) :
    add_slic3rpe (a ++ mmuSeamMid ++ b) = a ++ mmuSeamMid ++ b :=
  scanSub_id_of_no_occur matchModelTag_trigger
    (occurs_sandwich_eq_false (ha _ (by decide)) (hb _ (by decide))
      (by decide) (by decide) (by decide) (by decide))

theorem matchPaintSeam_at (b : List Char) :
    matchPaintSeam (seamAttr ++ b) = some ([], 15) := by
  have h1 : seamAttr ++ b = "paint_seam=\"".toList ++ ('0' :: '1' :: '"' :: b) := by
    have h0 : seamAttr = "paint_seam=\"".toList ++ ['0', '1', '"'] := by decide
    rw [h0, List.append_assoc]
    rfl
  rw [h1]
  unfold matchPaintSeam
  rw [if_pos (List.isPrefixOf_iff_prefix.mpr (List.prefix_append _ _))]
  have hd : ("paint_seam=\"".toList ++ ('0' :: '1' :: '"' :: b)).drop 12 =
      '0' :: '1' :: '"' :: b := by
    have hl : ("paint_seam=\"".toList).length = 12 := by decide
    rw [← hl, List.drop_left]
  rw [hd]
  have htw : ('0' :: '1' :: '"' :: b).takeWhile (fun c => c.isDigit || c.isUpper) =
      ['0', '1'] := by
    have : '0' :: '1' :: '"' :: b = ['0', '1'] ++ ('"' :: b) := rfl
    rw [this]
    exact takeWhile_append_stop (by decide) (by decide)
  rw [htw]
  simp

theorem rem_paint_seam_c7 {a b : List Char} (ha : inert a) (hb : inert b) :
    rem_paint_seam (a ++ mmuSeamMid ++ b) = a ++ mmuKept ++ b := by
  have hLa : occurs "paint_seam=\"".toList a = false := ha _ (by decide)
  have hLb : occurs "paint_seam=\"".toList b = false := hb _ (by decide)
  have hsplit : a ++ mmuSeamMid ++ b = (a ++ mmuKept) ++ (seamAttr ++ b) := by
    have h0 : mmuSeamMid = mmuKept ++ seamAttr := by decide
    rw [h0]
    simp [List.append_assoc]
  have hblock : occurs "paint_seam=\"".toList (a ++ mmuKept) = false :=
    occurs_append_eq_false hLa (by decide)
      (fun j h1 h2 hc => cross_of_noTailIn' (by decide) j h1 h2 hc.2)
  have hskip : scanSub matchPaintSeam ((a ++ mmuKept) ++ (seamAttr ++ b)) =
      (a ++ mmuKept) ++ scanSub matchPaintSeam (seamAttr ++ b) :=
    scanSub_skip_block matchPaintSeam_trigger hblock
      (fun j h1 h2 hc => headSuffix_of_append (by decide) (by decide) j h1 h2 hc.1)
  have hhead : scanSub matchPaintSeam (seamAttr ++ b) = scanSub matchPaintSeam b := by
    rw [scanSub_head_some (by omega) (by simp [seamAttr]) (matchPaintSeam_at b)]
    have hl : seamAttr.length = 15 := by decide
    rw [← hl, List.drop_left]
    rfl
  have hid : scanSub matchPaintSeam b = b :=
    scanSub_id_of_no_occur matchPaintSeam_trigger hLb
  show scanSub matchPaintSeam (a ++ mmuSeamMid ++ b) = a ++ mmuKept ++ b
  rw [hsplit, hskip, hhead, hid]

/-- C7: for every source model element declaring `paint_color="FF0000"`
and `paint_seam="01"`, embedded in context blocks free of the six rewrite
literals, the transformed text carries the multi-material-segmentation
attribute `slic3rpe:mmu_segmentation="FF0000"` and the seam attribute is
stripped: the six-step normalization maps the attribute span
`paint_color="FF0000" paint_seam="01"` to exactly
`slic3rpe:mmu_segmentation="FF0000" `, leaving the context unchanged. -/
instance instDecidableInert (s : List Char) : Decidable (inert s) := by
  unfold inert
  exact List.decidableBAll _ triggerLits

theorem claim_C7 {a b : List Char} (ha : inert a) (hb : inert b) :
    normalize (a ++ paintCore ++ b) = a ++ mmuKept ++ b := by
  unfold normalize
  rw [rem_xmlns_c7 ha hb, rem_pUUID_c7 ha hb, rem_encoding_c7 ha hb,
    rem_paint_color_c7 ha hb, add_slic3rpe_c7 ha hb, rem_paint_seam_c7 ha hb]

theorem claim_C7_witness :
    inert ("<object id=\"3\" type=\"model\" ".toList) ∧
    inert (" /><triangle v1=\"0\"/>".toList) ∧
    normalize ("<object id=\"3\" type=\"model\" ".toList ++ paintCore ++
        " /><triangle v1=\"0\"/>".toList) =
      "<object id=\"3\" type=\"model\" ".toList ++ mmuKept ++
        " /><triangle v1=\"0\"/>".toList :=
  ⟨by decide, by decide, claim_C7 (by decide) (by decide)⟩

theorem takeWhile_append_all {p : Char → Bool} {x y : List Char}
    (hx : ∀ d ∈ x, p d = true) : (x ++ y).takeWhile p = x ++ y.takeWhile p := by
  induction x with
  | nil => rfl
  | cons d t ih =>
    simp [List.takeWhile_cons, hx d (by simp)]
    exact ih (fun e he => hx e (by simp [he]))

theorem lastQuoteGt_append_some {x r : List Char} {i : Nat}
    (h : lastQuoteGt r = some i) : lastQuoteGt (x ++ r) = some (x.length + i) := by
  induction x with
  | nil => simpa using h
  | cons c t ih =>
    show lastQuoteGt (c :: (t ++ r)) = some ((c :: t).length + i)
    simp only [lastQuoteGt, ih]
    congr 1
    simp
    omega

theorem lastQuoteGt_pair {y : List Char} (h : lastQuoteGt ('>' :: y) = none) :
    lastQuoteGt ('"' :: '>' :: y) = some 0 := by
  rw [lastQuoteGt, h]
  rfl

/-- C8 (amended): the root-tag rewrite of line 139 fires only when the
opening `<model ` is followed, on the same line, by a closing `">`.  When
it is — `a ++ "<model " ++ inner ++ "\">" ++ b` with `inner` on one line
and no later `">` on the rest of the line — the whole span through that
`">` is replaced by exactly the target declaration: the Prusa core
namespace, the slic3rpe extension namespace, `unit="millimeter"` and
`xml:lang="en-US"`.  (The unamended universal claim fails: see the
counterexample, where the source root declares only a default namespace,
the namespace strip consumes the closing `">` and the root tag is left
with no target declarations at all.) -/
theorem claim_C8_amended {a inner b : List Char}
    (ha : occurs "<model ".toList a = false)
    (hb : occurs "<model ".toList b = false)
    (hinner : ∀ c ∈ inner, c ≠ '\n')
    (hline : lastQuoteGt ('>' :: b.takeWhile (fun c => c ≠ '\n')) = none) :
    add_slic3rpe (a ++ ("<model ".toList ++ inner ++ "\">".toList) ++ b) =
      a ++ prusaModelTag ++ b := by
  have hcrossA : ∀ j, 0 < j → j < ("<model ".toList).length →
      ¬ (("<model ".toList).take j <:+ a ∧
        ("<model ".toList).drop j <+:
          (("<model ".toList ++ inner ++ "\">".toList) ++ b)) := by
    intro j h1 h2 hc
    have hp := hc.2
    have hdl := List.length_drop j ("<model ".toList)
    have h7 : ("<model ".toList).length = 7 := by decide
    have hl1 : (("<model ".toList).drop j).length ≤
        ("<model ".toList ++ inner ++ "\">".toList).length := by
      simp only [List.length_append]
      omega
    have hp2 := prefix_short_left hp hl1
    rw [List.append_assoc] at hp2
    have hl2 : (("<model ".toList).drop j).length ≤ ("<model ".toList).length := by
      omega
    have hp3 := prefix_short_left hp2 hl2
    exact cross_of_noTailIn' (by decide) j h1 h2 hp3
  have hskipA : scanSub matchModelTag
      (a ++ (("<model ".toList ++ inner ++ "\">".toList) ++ b)) =
      a ++ scanSub matchModelTag (("<model ".toList ++ inner ++ "\">".toList) ++ b) :=
    scanSub_skip_block matchModelTag_trigger ha hcrossA
  have hq : "\">".toList = ['"', '>'] := by decide
  have harr : (("<model ".toList ++ inner ++ "\">".toList) ++ b) =
      "<model ".toList ++ (inner ++ ('"' :: '>' :: b)) := by
    rw [hq]
    simp [List.append_assoc]
  have hmatch : matchModelTag ("<model ".toList ++ (inner ++ ('"' :: '>' :: b))) =
      some (prusaModelTag, 7 + inner.length + 2) := by
    unfold matchModelTag
    rw [if_pos (List.isPrefixOf_iff_prefix.mpr (List.prefix_append _ _))]
    have h7 : ("<model ".toList).length = 7 := by decide
    have hd : ("<model ".toList ++ (inner ++ ('"' :: '>' :: b))).drop 7 =
        inner ++ ('"' :: '>' :: b) := by
      rw [← h7, List.drop_left]
    rw [hd]
    have htw : (inner ++ ('"' :: '>' :: b)).takeWhile (fun c => c ≠ '\n') =
        inner ++ ('"' :: '>' :: b.takeWhile (fun c => c ≠ '\n')) := by
      rw [takeWhile_append_all (fun d hd => by simpa using hinner d hd)]
      congr 1
    rw [htw]
    have hlq : lastQuoteGt (inner ++ ('"' :: '>' :: b.takeWhile (fun c => c ≠ '\n'))) =
        some inner.length := by
      have h0 : lastQuoteGt ('"' :: '>' :: b.takeWhile (fun c => c ≠ '\n')) = some 0 :=
        lastQuoteGt_pair hline
      have h1 := lastQuoteGt_append_some (x := inner) h0
      simpa using h1
    show (match lastQuoteGt (inner ++ ('"' :: '>' :: b.takeWhile (fun c => c ≠ '\n'))) with
      | some i => some (prusaModelTag, 7 + i + 2)
      | none => none) = some (prusaModelTag, 7 + inner.length + 2)
    rw [hlq]
  have hconsume : scanSub matchModelTag
      ("<model ".toList ++ (inner ++ ('"' :: '>' :: b))) =
      prusaModelTag ++ scanSub matchModelTag b := by
    rw [scanSub_head_some (by omega) (by simp) hmatch]
    congr 1
    have hre : "<model ".toList ++ (inner ++ ('"' :: '>' :: b)) =
        ("<model ".toList ++ inner ++ ['"', '>']) ++ b := by
      simp [List.append_assoc]
    rw [hre]
    have hlen : ("<model ".toList ++ inner ++ ['"', '>']).length =
        7 + inner.length + 2 := by
      have h7 : ("<model ".toList).length = 7 := by decide
      simp [List.length_append, h7]
      omega
    rw [← hlen, List.drop_left]
  have hidB : scanSub matchModelTag b = b :=
    scanSub_id_of_no_occur matchModelTag_trigger hb
  calc add_slic3rpe (a ++ ("<model ".toList ++ inner ++ "\">".toList) ++ b)
      = scanSub matchModelTag
          (a ++ (("<model ".toList ++ inner ++ "\">".toList) ++ b)) := by
        show scanSub matchModelTag _ = _
        rw [List.append_assoc]
    _ = a ++ scanSub matchModelTag
          (("<model ".toList ++ inner ++ "\">".toList) ++ b) := hskipA
    _ = a ++ (prusaModelTag ++ b) := by rw [harr, hconsume, hidB]
    _ = a ++ prusaModelTag ++ b := by rw [List.append_assoc]

theorem claim_C8_amended_witness :
    occurs "<model ".toList ("<?xml version=\"1.0\"?>".toList) = false ∧
    occurs "<model ".toList ("<resources/></model>".toList) = false ∧
    (∀ c ∈ "unit=\"millimeter\" xml:lang=\"en-US".toList, c ≠ '\n') ∧
    lastQuoteGt ('>' :: ("<resources/></model>".toList).takeWhile (fun c => c ≠ '\n')) = none ∧
    add_slic3rpe ("<?xml version=\"1.0\"?>".toList ++
        ("<model ".toList ++ "unit=\"millimeter\" xml:lang=\"en-US".toList ++ "\">".toList) ++
        "<resources/></model>".toList) =
      "<?xml version=\"1.0\"?>".toList ++ prusaModelTag ++ "<resources/></model>".toList :=
  ⟨by decide, by decide, by decide, by decide,
    claim_C8_amended (by decide) (by decide) (by decide) (by decide)⟩

/-- C8 counterexample input: a well-formed source model file whose root
tag declares a default namespace and nothing else. -/
def c8Input : List Char :=
  "<?xml version=\"1.0\"?><model xmlns=\"http://bambu\"><resources/><build/></model>".toList

/-- What the pipeline actually produces for `c8Input`: the namespace strip
(line 131) consumes the root tag's closing quote, so the root rewrite
(line 139) finds no `">` on the line and never fires; the output root
declares no namespaces at all. -/
def c8Output : List Char :=
  "<?xml version=\"1.0\"?><model ><resources/><build/></model>".toList

/-- C8 counterexample: for the source model file `c8Input` — whose root
declares a default namespace, a legitimate instance of "whatever default
namespace and model-root attributes the source declared" — the
transformed document's root is `<model >`: it declares neither the target
core namespace nor the slic3rpe extension namespace, refuting the claim
that every transformed root carries exactly the target declarations. -/
theorem claim_C8_counterexample :
    normalize c8Input = c8Output ∧
    occurs "3dmanufacturing".toList (normalize c8Input) = false ∧
    occurs "slic3rpe".toList (normalize c8Input) = false ∧
    occurs "<model >".toList (normalize c8Input) = true :=
  ⟨by decide, by decide, by decide, by decide⟩

/-- Fixed placement transform of the injected build items (line 182). -/
def itemTransform : String :=
  "0.799151571 0 0 0 0.799151571 0 0 0 0.799151571 184.67373 221.31425 1.61151839"

/-- One build item element, as appended by line 182. -/
structure Item where
  objectid : String
  transform : String
  printable : String
deriving DecidableEq

/-- `ET.Element("item", objectid=bobject, transform=..., printable="1")`
(line 182). -/
def mkItem (k : String) : Item := ⟨k, itemTransform, "1"⟩

/-- Lines 181-182: append one item per retained object, in mapping
(insertion) order, under the template's build element. -/
def appendItems (tmpl : List Item) (ids : List String) : List Item :=
  ids.foldl (fun acc k => acc ++ [mkItem k]) tmpl

/-- The literal pattern of the splice `re.sub` (line 189). -/
def resourcesTag : List Char := "<resources>".toList

/-- Matcher for `re.sub("<resources>", "<resources>\n" + obj, text)`
(line 189): a literal pattern, replaced by itself plus a newline plus the
serialized object subtree. -/
def matchResources (obj : List Char) (s : List Char) : Option (List Char × Nat) :=
  if resourcesTag.isPrefixOf s then some (resourcesTag ++ '\n' :: obj, 11) else none

/-- One splice pass of line 189. -/
def spliceOne (obj content : List Char) : List Char :=
  scanSub (matchResources obj) content

/-- The splice loop of lines 187-189: one pass per retained object, in
mapping insertion order, each over the text produced so far. -/
def injectLoop (objs : List (List Char)) (content : List Char) : List Char :=
  objs.foldl (fun acc o => spliceOne o acc) content

theorem matchResources_trigger (obj : List Char) :
    ∀ (s : List Char) (p : List Char × Nat),
    matchResources obj s = some p → resourcesTag <+: s := by
  intro s p h
  by_cases hp : resourcesTag.isPrefixOf s
  · exact List.isPrefixOf_iff_prefix.mp hp
  · exfalso; unfold matchResources at h; rw [if_neg hp] at h
    exact Option.noConfusion h

theorem matchResources_at (obj rest : List Char) :
    matchResources obj (resourcesTag ++ rest) =
      some (resourcesTag ++ '\n' :: obj, 11) := by
  unfold matchResources
  rw [if_pos (List.isPrefixOf_iff_prefix.mpr (List.prefix_append _ _))]

/-- A single splice on a text with exactly one `<resources>` inserts the
subtree right after that tag. -/
theorem spliceOne_eq {obj pre rest : List Char}
    (hpre : occurs resourcesTag pre = false)
    (hrest : occurs resourcesTag rest = false) :
    spliceOne obj (pre ++ (resourcesTag ++ rest)) =
      pre ++ (resourcesTag ++ ('\n' :: (obj ++ rest))) := by
  have hskip : scanSub (matchResources obj) (pre ++ (resourcesTag ++ rest)) =
      pre ++ scanSub (matchResources obj) (resourcesTag ++ rest) :=
    scanSub_skip_block (matchResources_trigger obj) hpre (fun j h1 h2 hc => by
      have hp := hc.2
      have hl : (resourcesTag.drop j).length ≤ resourcesTag.length := by
        simp [List.length_drop]
      have hp2 := prefix_short_left hp hl
      exact cross_of_noTailIn' (by decide) j h1 h2 hp2)
  have hhead : scanSub (matchResources obj) (resourcesTag ++ rest) =
      (resourcesTag ++ '\n' :: obj) ++ scanSub (matchResources obj) rest := by
    rw [scanSub_head_some (by omega)
      (by simp; intro h; exact absurd h (by decide)) (matchResources_at obj rest)]
    have h11 : resourcesTag.length = 11 := by decide
    rw [← h11, List.drop_left]
  have hid : scanSub (matchResources obj) rest = rest :=
    scanSub_id_of_no_occur (matchResources_trigger obj) hrest
  show scanSub (matchResources obj) (pre ++ (resourcesTag ++ rest)) = _
  rw [hskip, hhead, hid]
  simp [List.append_assoc]

/-- The splice loop prepends each subtree to the resources section: after
processing `objs` in order, the section lists them in reverse order. -/
theorem injectLoop_eq {pre : List Char} (hpre : occurs resourcesTag pre = false) :
    ∀ (objs : List (List Char)) (rest : List Char),
      occurs resourcesTag rest = false →
      (∀ o ∈ objs, occurs resourcesTag ('\n' :: o) = false ∧
        ∀ j < resourcesTag.length, 0 < j → ¬ resourcesTag.take j <:+ ('\n' :: o)) →
      injectLoop objs (pre ++ (resourcesTag ++ rest)) =
        pre ++ (resourcesTag ++
          objs.reverse.foldr (fun o acc => '\n' :: (o ++ acc)) rest) := by
  intro objs
  induction objs with
  | nil => intro rest _ _; rfl
  | cons o os ih =>
    intro rest hrest hobj
    have hco := hobj o (by simp)
    show injectLoop os (spliceOne o (pre ++ (resourcesTag ++ rest))) = _
    rw [spliceOne_eq hpre hrest]
    have hrest' : occurs resourcesTag ('\n' :: (o ++ rest)) = false := by
      have hx := occurs_append_eq_false (x := '\n' :: o) (y := rest) hco.1 hrest
        (fun j h1 h2 hc => hco.2 j h2 h1 hc.1)
      simpa using hx
    rw [ih ('\n' :: (o ++ rest)) hrest' (fun o' ho' => hobj o' (by simp [ho']))]
    congr 2
    rw [List.reverse_cons, List.foldr_append]
    rfl

theorem appendItems_eq : ∀ (ids : List String) (tmpl : List Item),
    appendItems tmpl ids = tmpl ++ ids.map mkItem := by
  intro ids
  induction ids with
  | nil => intro tmpl; simp [appendItems]
  | cons k ks ih =>
    intro tmpl
    show appendItems (tmpl ++ [mkItem k]) ks = _
    rw [ih]
    simp

/-- C10: for a retained-object mapping holding `(id, subtree)` pairs in
insertion order (n ≥ 2), the injector appends one build item per object
in insertion order under the (initially empty) build section, and splices
each serialized subtree immediately after the first `<resources>` of the
current text, so the final text lists the subtrees in reverse insertion
order after the resources tag, while the preceding text and the tail are
unchanged. -/
theorem claim_C10 {pre rest : List Char} (bobjects : List (String × List Char))
    (_hn : 2 ≤ bobjects.length)
    (hpre : occurs resourcesTag pre = false)
    (hrest : occurs resourcesTag rest = false)
    (hobj : ∀ o ∈ bobjects.map Prod.snd, occurs resourcesTag ('\n' :: o) = false ∧
      ∀ j < resourcesTag.length, 0 < j → ¬ resourcesTag.take j <:+ ('\n' :: o)) :
    appendItems [] (bobjects.map Prod.fst) =
      (bobjects.map Prod.fst).map mkItem ∧
    injectLoop (bobjects.map Prod.snd) (pre ++ (resourcesTag ++ rest)) =
      pre ++ (resourcesTag ++
        (bobjects.map Prod.snd).reverse.foldr (fun o acc => '\n' :: (o ++ acc)) rest) :=
  ⟨by rw [appendItems_eq]; rfl,
    injectLoop_eq hpre (bobjects.map Prod.snd) rest hrest hobj⟩

theorem claim_C10_witness :
    2 ≤ ([("1", "<object id=\"1\" type=\"model\"/>".toList),
          ("2", "<object id=\"2\" type=\"model\"/>".toList)] :
          List (String × List Char)).length ∧
    injectLoop (([("1", "<object id=\"1\" type=\"model\"/>".toList),
          ("2", "<object id=\"2\" type=\"model\"/>".toList)] :
          List (String × List Char)).map Prod.snd)
        ("<model>".toList ++ (resourcesTag ++ "</resources><build></build></model>".toList)) =
      "<model>".toList ++ (resourcesTag ++
        ('\n' :: ("<object id=\"2\" type=\"model\"/>".toList ++
          ('\n' :: ("<object id=\"1\" type=\"model\"/>".toList ++
            "</resources><build></build></model>".toList))))) := by
  refine ⟨by decide, ?_⟩
  have h := (@claim_C10 ("<model>".toList)
    ("</resources><build></build></model>".toList)
    [("1", "<object id=\"1\" type=\"model\"/>".toList),
     ("2", "<object id=\"2\" type=\"model\"/>".toList)]
    (by decide) (by decide) (by decide) (by decide)).2
  rw [h]
  rfl

/-- Python exception values crossing the embedded control flow. -/
inductive PyErr where
  | valueError (msg : String)
  | typeError (msg : String)
  | keyError (key : String)
  | badZipFile
  | fileNotFound (msg : String)
deriving DecidableEq

/-- One parsed `<object>` element: its attribute dictionary.  The element
value itself stands for the whole subtree, which the code stores
unchanged. -/
structure XObj where
  attrib : List (String × String)
deriving DecidableEq

/-- Python `dict` assignment `d[k] = v`: overwrite in place when the key
exists, append otherwise. -/
def dictInsert (d : List (String × XObj)) (k : String) (v : XObj) :
    List (String × XObj) :=
  if (d.lookup k).isSome then d.map (fun q => if q.1 = k then (k, v) else q)
  else d ++ [(k, v)]

/-- The object filter loop of lines 148-151: for each object read
`attrib['type']`; keep the object under `attrib['id']` when the type is
`"model"`; the debug log of line 151 reads `attrib['id']` for every
object, so a missing key raises `KeyError` (second component) leaving the
dictionary built so far (first component). -/
def relevantLoop : List XObj → List (String × XObj) →
    List (String × XObj) × Option PyErr
  | [], acc => (acc, none)
  | o :: rest, acc =>
    match o.attrib.lookup "type" with
    | none => (acc, some (.keyError "type"))
    | some t =>
      match o.attrib.lookup "id" with
      | none => (acc, some (.keyError "id"))
      | some i =>
        relevantLoop rest (if t = "model" then dictInsert acc i o else acc)

/-- The retention test of line 149. -/
def isModelType (o : XObj) : Bool := o.attrib.lookup "type" == some "model"

/-- The identifier key used on line 150. -/
def objIdOf (o : XObj) : String := (o.attrib.lookup "id").getD ""

theorem relevantLoop_eq : ∀ (objs : List XObj) (acc : List (String × XObj)),
    (∀ o ∈ objs, (o.attrib.lookup "type").isSome ∧ (o.attrib.lookup "id").isSome) →
    ((objs.filter isModelType).map objIdOf).Nodup →
    (∀ o ∈ objs.filter isModelType, acc.lookup (objIdOf o) = none) →
    relevantLoop objs acc =
      (acc ++ (objs.filter isModelType).map (fun o => (objIdOf o, o)), none) := by
  intro objs
  induction objs with
  | nil => intro acc _ _ _; simp [relevantLoop]
  | cons o rest ih =>
    intro acc hattr hids hfresh
    obtain ⟨htype, hid⟩ := hattr o (by simp)
    obtain ⟨t, ht⟩ := Option.isSome_iff_exists.mp htype
    obtain ⟨i, hi⟩ := Option.isSome_iff_exists.mp hid
    have hstep : relevantLoop (o :: rest) acc =
        relevantLoop rest (if t = "model" then dictInsert acc i o else acc) := by
      simp [relevantLoop, ht, hi]
    by_cases hmodel : t = "model"
    · have hmo : isModelType o = true := by
        simp [isModelType, ht, hmodel]
      have hio : objIdOf o = i := by simp [objIdOf, hi]
      rw [List.filter_cons_of_pos hmo] at hids hfresh ⊢
      rw [List.map_cons, List.nodup_cons] at hids
      obtain ⟨hnotmem, hids'⟩ := hids
      have hfo : acc.lookup i = none := by
        rw [← hio]; exact hfresh o (by simp)
      have hins : dictInsert acc i o = acc ++ [(i, o)] := by
        simp [dictInsert, hfo]
      have hfresh' : ∀ o' ∈ rest.filter isModelType,
          (acc ++ [(i, o)]).lookup (objIdOf o') = none := by
        intro o' ho'
        rw [List.lookup_append, hfresh o' (by simp [ho'])]
        have hne : objIdOf o' ≠ i := by
          rw [← hio]
          exact fun he => hnotmem (he ▸ List.mem_map_of_mem objIdOf ho')
        simp [List.lookup_cons, beq_eq_false_iff_ne.mpr hne]
      rw [hstep, if_pos hmodel, hins,
        ih (acc ++ [(i, o)]) (fun o' ho' => hattr o' (by simp [ho'])) hids' hfresh']
      simp [hio, List.append_assoc]
    · have hmo : ¬ isModelType o = true := by
        simp [isModelType, ht, hmodel]
      rw [List.filter_cons_of_neg hmo] at hids hfresh ⊢
      rw [hstep, if_neg hmodel]
      exact ih acc (fun o' ho' => hattr o' (by simp [ho'])) hids hfresh

/-- C1: for a model file whose object elements each carry `type` and `id`
attributes, with identifiers unique among the `type="model"` objects, the
filter loop of lines 148-151 keeps exactly the objects of type `"model"`
(in order, each keyed by its own unchanged identifier, the element value
unchanged), discards every other type, and raises no error. -/
theorem claim_C1 (objs : List XObj)
    (hattr : ∀ o ∈ objs, (o.attrib.lookup "type").isSome ∧
      (o.attrib.lookup "id").isSome)
    (hids : ((objs.filter isModelType).map objIdOf).Nodup) :
    relevantLoop objs [] =
      ((objs.filter isModelType).map (fun o => (objIdOf o, o)), none) := by
  have h := relevantLoop_eq objs [] hattr hids (by intro o _; rfl)
  simpa using h

theorem claim_C1_witness :
    (∀ o ∈ [XObj.mk [("type", "model"), ("id", "1")],
            XObj.mk [("type", "support"), ("id", "2")],
            XObj.mk [("type", "other"), ("id", "3")],
            XObj.mk [("type", "model"), ("id", "4")]],
      (o.attrib.lookup "type").isSome ∧ (o.attrib.lookup "id").isSome) ∧
    ((([XObj.mk [("type", "model"), ("id", "1")],
        XObj.mk [("type", "support"), ("id", "2")],
        XObj.mk [("type", "other"), ("id", "3")],
        XObj.mk [("type", "model"), ("id", "4")]].filter isModelType).map objIdOf).Nodup) ∧
    relevantLoop [XObj.mk [("type", "model"), ("id", "1")],
        XObj.mk [("type", "support"), ("id", "2")],
        XObj.mk [("type", "other"), ("id", "3")],
        XObj.mk [("type", "model"), ("id", "4")]] [] =
      ([("1", XObj.mk [("type", "model"), ("id", "1")]),
        ("4", XObj.mk [("type", "model"), ("id", "4")])], none) := by
  refine ⟨by decide, by decide, ?_⟩
  rw [claim_C1 _ (by decide) (by decide)]
  decide

/-- `os.path.basename` for `/`-separated paths (line 160). -/
def basenameChars (s : List Char) : List Char :=
  s.foldl (fun acc c => if c = '/' then [] else acc ++ [c]) []

def basename (p : String) : String := ⟨basenameChars p.toList⟩

/-- One discovered model file: its path, whether it still exists on disk
when processed (line 117), and its text content. -/
structure MFile where
  path : String
  present : Bool
  content : String
deriving DecidableEq

/-- `model_convert_re` (lines 114-162), parameterized by the XML parser
(`ET.fromstring` plus the `findall` of line 145, treated as an oracle
returning the object elements or a parse error).  A missing file returns
`(None, None)` (lines 117-119).  Any exception inside the `try` — a parse
failure at line 144 or a `KeyError` in the loop — is caught at lines
156-157, logged, and swallowed; the function then returns the basename
with whatever dictionary was built (empty when the parse itself failed).
The function never raises, hence the always-`.ok` result. -/
def model_convert_re (parse : List Char → Except String (List XObj))
    (f : MFile) :
    Except PyErr (Option String × Option (List (String × XObj))) :=
  if f.present = false then .ok (none, none)
  else
    match parse (normalize f.content.toList) with
    | .error _ => .ok (some (basename f.path), some [])
    | .ok objs => .ok (some (basename f.path), some (relevantLoop objs []).1)

/-- `inject_bobject2pobject` (lines 164-201) at the level the
orchestration claims need: iterating `for bobject in bobjects` (line 181)
over `None` raises `TypeError`, which the handler at line 201 re-raises;
a dictionary (possibly empty) yields the injected document, kept abstract
as the retained mapping itself. -/
def inject_bobject2pobject :
    Option (List (String × XObj)) → Except PyErr (List (String × XObj))
  | none => .error (.typeError "NoneType object is not iterable")
  | some d => .ok d

/-- First loop of `convert` (lines 88-91): transform every discovered
model file. -/
def phase1 (parse : List Char → Except String (List XObj)) :
    List MFile →
      Except PyErr (List (Option String × Option (List (String × XObj))))
  | [] => .ok []
  | f :: rest => do
    let p ← model_convert_re parse f
    let ps ← phase1 parse rest
    .ok (p :: ps)

/-- Second loop of `convert` (lines 94-100): inject each transformed
mapping and write the model file; `write_prusa_model` swallows its own
errors (lines 234-235), while injection errors propagate.  The boolean
records whether at least one write ran, which is when the assembly temp
directory is created (line 224). -/
def phase2 : List (Option String × Option (List (String × XObj))) →
    Except PyErr (List (Option String)) × Bool
  | [] => (.ok [], false)
  | (fn, objs) :: rest =>
    match inject_bobject2pobject objs with
    | .error e => (.error e, false)
    | .ok _ =>
      match phase2 rest with
      | (.error e, _) => (.error e, true)
      | (.ok fns, _) => (.ok (fn :: fns), true)

/-- `generate3mf_file` (lines 237-285).  The two guard checks (lines
240-247) run before the `try` block, so their `ValueError`s propagate.
Everything inside the `try` — template copying, relationship writing,
compression — is abstracted by `body`; an exception there is caught at
lines 284-285, logged, and swallowed, so the function returns normally
with no archive written.  The boolean result records whether the output
archive was created. -/
def generate3mf_file (models : List (Option String)) (outputFile : String)
    (body : Except PyErr Unit) : Except PyErr Bool :=
  if outputFile = "" then .error (.valueError "Please provide an output file.")
  else if models.isEmpty then
    .error (.valueError "No models to generate 3mf file structure.")
  else
    match body with
    | .ok _ => .ok true
    | .error _ => .ok false

/-- The temporary directories owned by one run. -/
structure Dirs where
  extractionExists : Bool
  assemblyExists : Bool
deriving DecidableEq

/-- `cleanup` (lines 287-297): removes only `temp_3mf_dir` (lines
293-294); the extraction directory returned by `decompress_zip` is never
deleted anywhere in the program. -/
def cleanup (d : Dirs) : Dirs := { d with assemblyExists := false }

/-- The inputs of one conversion run.  `zipOk` is whether the input opens
as a zip (line 59); `objectsDirExists` is the check of line 80;
`modelFiles` is the `rglob` result of line 82 (the dead
`bambu_model_paths == None` guard of line 83 never fires on a list);
`assemblyBody` abstracts lines 249-283. -/
structure Cfg where
  inputFile : String
  outputFile : String
  zipOk : Bool
  objectsDirExists : Bool
  modelFiles : List MFile
  parse : List Char → Except String (List XObj)
  assemblyBody : Except PyErr Unit

/-- The observable outcome of one run. -/
structure RunResult where
  outcome : Except PyErr Unit
  outputCreated : Bool
  dirs : Dirs

/-- `convert` (lines 64-112): the `try` body runs extraction, the two
loops and assembly; any exception is logged and re-raised (lines
106-109); the `finally` (lines 110-112) always runs `cleanup`.  The
extraction directory is created by `extractall` (line 60); the
`tempfile.TemporaryDirectory` object of line 56 is finalized by the
garbage collector before extraction, so after `extractall` the directory
exists with nothing scheduled to remove it. -/
def convertRun (cfg : Cfg) : RunResult :=
  let r : Except PyErr Bool × Dirs :=
    if cfg.inputFile = "" ∨ cfg.outputFile = "" then
      (.error (.valueError "Please provide both input and output files."),
        ⟨false, false⟩)
    else if cfg.zipOk = false then (.error .badZipFile, ⟨false, false⟩)
    else
      match phase1 cfg.parse
          (if cfg.objectsDirExists then cfg.modelFiles else []) with
      | .error e => (.error e, ⟨true, false⟩)
      | .ok pairs =>
        match phase2 pairs with
        | (.error e, w) => (.error e, ⟨true, w⟩)
        | (.ok filenames, w) =>
          match generate3mf_file filenames cfg.outputFile cfg.assemblyBody with
          | .error e => (.error e, ⟨true, w⟩)
          | .ok created => (.ok created, ⟨true, w⟩)
  { outcome := r.1.map (fun _ => ())
    outputCreated := match r.1 with | .ok b => b | .error _ => false
    dirs := cleanup r.2 }

/-- `main` (lines 300-344): exit code 1 when `convert` raises, 0
otherwise. -/
def runExit (cfg : Cfg) : Nat :=
  match (convertRun cfg).outcome with
  | .ok _ => 0
  | .error _ => 1

/-- A parser oracle that always succeeds with no objects. -/
def trivialParse : List Char → Except String (List XObj) := fun _ => .ok []

/-- A parser oracle that always fails, standing for text that is still
not well-formed XML after normalization. -/
def badParse : List Char → Except String (List XObj) :=
  fun _ => .error "not well-formed (invalid token)"

/-- A batch of two model files in which the first is missing on disk. -/
def c2Cfg : Cfg :=
  ⟨"in.3mf", "out.3mf", true, true,
    [⟨"3D/Objects/gone.model", false, ""⟩,
     ⟨"3D/Objects/plate_1.model", true, ""⟩],
    trivialParse, .ok ()⟩

/-- C2 is violated by the code: with a batch of two model files whose
first is missing, `model_convert_re` logs and returns `(None, None)`
(lines 117-119, the intended skip), but the injection loop then calls
`inject_bobject2pobject(None)`, whose `for` over `None` raises
`TypeError` (line 181), re-raised at line 201 and at line 109 — aborting
the whole run with exit code 1 and no output, instead of skipping the
file and converting the rest of the batch. -/
theorem claim_C2 :
    (convertRun c2Cfg).outcome =
      .error (.typeError "NoneType object is not iterable") ∧
    runExit c2Cfg = 1 ∧ (convertRun c2Cfg).outputCreated = false :=
  ⟨rfl, rfl, rfl⟩

/-- C3 counterexample: on a present model file whose text fails to parse
after normalization, `model_convert_re` returns a normal result — the
file's basename and an empty retained-object mapping — rather than
propagating any error: the `except Exception` at lines 156-157 logs and
swallows the parse failure. -/
theorem claim_C3_counterexample :
    model_convert_re badParse ⟨"3D/Objects/bad.model", true, "<model"⟩ =
      .ok (some "bad.model", some []) := rfl

/-- C3 (amended): a model file whose text still fails to parse after the
six rewrites does not produce a hard error; the exception is caught and
logged (lines 156-157) and the transformer returns the file's base name
with an empty retained-object mapping, which downstream becomes an empty
output model file. -/
theorem claim_C3 (parse : List Char → Except String (List XObj))
    (f : MFile) (msg : String) (hp : f.present = true)
    (he : parse (normalize f.content.toList) = .error msg) :
    model_convert_re parse f = .ok (some (basename f.path), some []) := by
  unfold model_convert_re
  rw [hp, he]
  simp

theorem claim_C3_witness :
    (⟨"3D/Objects/x.model", true, "<model><resources></model>"⟩ : MFile).present
      = true ∧
    badParse (normalize ("<model><resources></model>".toList)) =
      .error "not well-formed (invalid token)" ∧
    model_convert_re badParse
        ⟨"3D/Objects/x.model", true, "<model><resources></model>"⟩ =
      .ok (some "x.model", some []) :=
  ⟨rfl, rfl, claim_C3 badParse _ "not well-formed (invalid token)" rfl rfl⟩

/-- C4: when the source archive has no `3D/Objects` directory, no model
files are discovered, the assembler's empty-set guard (lines 244-247)
raises `ValueError("No models to generate 3mf file structure.")` before
its `try` block, the error propagates through `convert` (line 109), the
run exits non-zero, and no output archive is created. -/
theorem claim_C4 (cfg : Cfg)
    (hin : cfg.inputFile ≠ "") (hout : cfg.outputFile ≠ "")
    (hzip : cfg.zipOk = true) (hobj : cfg.objectsDirExists = false) :
    (convertRun cfg).outcome =
      .error (.valueError "No models to generate 3mf file structure.") ∧
    runExit cfg = 1 ∧ (convertRun cfg).outputCreated = false := by
  unfold runExit
  unfold convertRun
  simp [hin, hout, hzip, hobj, phase1, phase2, generate3mf_file, cleanup]
  exact ⟨rfl, rfl⟩

theorem claim_C4_witness :
    ("in.3mf" : String) ≠ "" ∧ ("out.3mf" : String) ≠ "" ∧
    (convertRun ⟨"in.3mf", "out.3mf", true, false, [], trivialParse, .ok ()⟩).outcome =
      .error (.valueError "No models to generate 3mf file structure.") ∧
    runExit ⟨"in.3mf", "out.3mf", true, false, [], trivialParse, .ok ()⟩ = 1 ∧
    (convertRun ⟨"in.3mf", "out.3mf", true, false, [], trivialParse, .ok ()⟩).outputCreated
      = false := by
  refine ⟨by decide, by decide, ?_⟩
  exact (claim_C4 ⟨"in.3mf", "out.3mf", true, false, [], trivialParse, .ok ()⟩
    (by decide) (by decide) rfl rfl)

theorem model_convert_re_present (parse : List Char → Except String (List XObj))
    (f : MFile) (hf : f.present = true) :
    ∃ d, model_convert_re parse f = .ok (some (basename f.path), some d) := by
  unfold model_convert_re
  rw [hf, if_neg (by simp : ¬ (true = false))]
  cases parse (normalize f.content.toList) with
  | error e => exact ⟨[], rfl⟩
  | ok objs => exact ⟨(relevantLoop objs []).1, rfl⟩

theorem phase1_present (parse : List Char → Except String (List XObj)) :
    ∀ (files : List MFile), (∀ f ∈ files, f.present = true) →
    ∃ pairs, phase1 parse files = .ok pairs ∧
      pairs.length = files.length ∧ ∀ p ∈ pairs, (p.2).isSome = true := by
  intro files
  induction files with
  | nil => intro _; exact ⟨[], rfl, rfl, by simp⟩
  | cons f rest ih =>
    intro h
    obtain ⟨d, hd⟩ := model_convert_re_present parse f (h f (by simp))
    obtain ⟨pairs, hp, hlen, hsome⟩ := ih (fun f' hf' => h f' (by simp [hf']))
    refine ⟨(some (basename f.path), some d) :: pairs, ?_, by simp [hlen], ?_⟩
    · show (do
        let p ← model_convert_re parse f
        let ps ← phase1 parse rest
        Except.ok (p :: ps)) = _
      rw [hd, hp]
      rfl
    · intro p hp'
      rcases List.mem_cons.mp hp' with h1 | h1
      · subst h1; rfl
      · exact hsome p h1

theorem phase2_all_some :
    ∀ (pairs : List (Option String × Option (List (String × XObj)))),
    (∀ p ∈ pairs, (p.2).isSome = true) →
    phase2 pairs = (.ok (pairs.map Prod.fst), !pairs.isEmpty) := by
  intro pairs
  induction pairs with
  | nil => intro _; rfl
  | cons p rest ih =>
    intro h
    obtain ⟨fn, objs⟩ := p
    obtain ⟨d, hd⟩ := Option.isSome_iff_exists.mp (h (fn, objs) (by simp))
    subst hd
    have hrec := ih (fun q hq => h q (by simp [hq]))
    simp [phase2, inject_bobject2pobject, hrec]

/-- A run in which the assembly step fails: here the relationships
template is missing, a `TemplateError` in the spec's taxonomy. -/
def c5Cfg : Cfg :=
  ⟨"in.3mf", "out.3mf", true, true,
    [⟨"3D/Objects/plate_1.model", true, ""⟩], trivialParse,
    .error (.fileNotFound "3mf_template/_rels/.rels_template.xml")⟩

/-- C5 counterexample: a failure inside package assembly (a missing
template asset, not a per-model-file transform failure) does not abort
the run: `generate3mf_file` catches and swallows it (lines 284-285),
`convert` prints the success message (line 104), and the process exits 0
with no output archive created — refuting "every error other than a
per-model-file transform failure aborts the entire run with a non-zero
exit code". -/
theorem claim_C5_counterexample :
    (convertRun c5Cfg).outcome = .ok () ∧ runExit c5Cfg = 0 ∧
    (convertRun c5Cfg).outputCreated = false :=
  ⟨rfl, rfl, rfl⟩

/-- C5 (amended): errors raised before the assembler's `try` block — bad
input/output arguments, an unreadable zip, an injection failure, the
empty-model-set guard — abort the run with a non-zero exit; but an error
raised inside the assembly `try` block (template copying, relationship
writing, compression) is logged and swallowed: the run reports success
with exit code 0, and the output archive is simply not created by the
failed assembly. -/
theorem claim_C5 (cfg : Cfg) (e : PyErr)
    (hin : cfg.inputFile ≠ "") (hout : cfg.outputFile ≠ "")
    (hzip : cfg.zipOk = true) (hobj : cfg.objectsDirExists = true)
    (hne : cfg.modelFiles ≠ [])
    (hpres : ∀ f ∈ cfg.modelFiles, f.present = true)
    (hbody : cfg.assemblyBody = .error e) :
    (convertRun cfg).outcome = .ok () ∧ runExit cfg = 0 ∧
    (convertRun cfg).outputCreated = false := by
  obtain ⟨pairs, hp1, hlen, hsome⟩ := phase1_present cfg.parse cfg.modelFiles hpres
  have hp2 := phase2_all_some pairs hsome
  have hpairs_ne : pairs ≠ [] := by
    intro hc
    subst hc
    exact hne (List.length_eq_zero.mp hlen.symm)
  have hmne : (pairs.map Prod.fst).isEmpty = false := by
    rw [List.isEmpty_eq_false_iff_exists_mem]
    obtain ⟨q, qs, rfl⟩ := List.exists_cons_of_ne_nil hpairs_ne
    exact ⟨q.1, by simp⟩
  have hgen : generate3mf_file (pairs.map Prod.fst) cfg.outputFile
      cfg.assemblyBody = .ok false := by
    unfold generate3mf_file
    rw [if_neg hout, hbody]
    simp [hmne]
  unfold runExit convertRun
  simp [hin, hout, hzip, hobj, hp1, hp2, hgen, cleanup]
  exact ⟨rfl, rfl⟩

theorem claim_C5_witness :
    c5Cfg.inputFile ≠ "" ∧ c5Cfg.outputFile ≠ "" ∧ c5Cfg.zipOk = true ∧
    c5Cfg.objectsDirExists = true ∧ c5Cfg.modelFiles ≠ [] ∧
    (∀ f ∈ c5Cfg.modelFiles, f.present = true) ∧
    c5Cfg.assemblyBody =
      .error (.fileNotFound "3mf_template/_rels/.rels_template.xml") ∧
    ((convertRun c5Cfg).outcome = .ok () ∧ runExit c5Cfg = 0 ∧
      (convertRun c5Cfg).outputCreated = false) :=
  ⟨by decide, by decide, rfl, rfl, by decide, by decide, rfl,
    claim_C5 c5Cfg (.fileNotFound "3mf_template/_rels/.rels_template.xml")
      (by decide) (by decide) rfl rfl (by decide) (by decide) rfl⟩

/-- A fully successful run: readable zip, one present model file,
parsable content, assembly succeeds. -/
def c9Cfg : Cfg :=
  ⟨"in.3mf", "out.3mf", true, true,
    [⟨"3D/Objects/plate_1.model", true, ""⟩], trivialParse, .ok ()⟩

/-- C9 is violated by the code: even on a fully successful run the
extraction directory is still on disk after `convert` returns — `cleanup`
(lines 287-297) removes only `temp_3mf_dir`, and the
`tempfile.TemporaryDirectory` handle of line 56 was finalized before
`extractall` re-created the directory, so nothing ever deletes the
extraction directory.  The assembly directory is deleted on every exit
path, but the claim requires both. -/
theorem claim_C9 :
    (convertRun c9Cfg).outcome = .ok () ∧
    (convertRun c9Cfg).outputCreated = true ∧
    (convertRun c9Cfg).dirs.extractionExists = true ∧
    (convertRun c9Cfg).dirs.assemblyExists = false :=
  ⟨rfl, rfl, rfl, rfl⟩

/-- The fixed 3D-model relationship type of line 271. -/
def relType : String :=
  "http://schemas.openxmlformats.org/officeDocument/2006/relationships/3dmodel"

/-- One `<Relationship Target=... Id=... Type=.../>` element as built on
line 271. -/
structure Rel where
  target : String
  relId : String
  type : String
deriving DecidableEq

/-- Modelled from the spec: the relationships-file skeleton
(`3mf_template/_rels/.rels_template.xml`, a template asset not under
src/) carries no `Relationship` entries of its own — §6 calls it "a
relationships-file skeleton" and §8 counts exactly one output entry per
written model file. -/
def relsTemplate : List Rel := []

/-- The loop of lines 268-273: `relationship_number` starts at 1 and
increments once per model; each model file contributes one relationship
with target `/3D/Objects/<model>`, id `rel-<n>` and the fixed type. -/
def relsLoop : Nat → List String → List Rel
  | _, [] => []
  | n, m :: rest =>
    ⟨"/3D/Objects/" ++ m, "rel-" ++ toString n, relType⟩ :: relsLoop (n + 1) rest

/-- The relationships document written by `generate3mf_file`
(lines 266-276): the cloned template's entries followed by the appended
ones. -/
def buildRels (models : List String) : List Rel :=
  relsTemplate ++ relsLoop 1 models

/-- The spec's description of the relationships document (§4.4, §8): one
entry per written model file, ids `rel-1`, `rel-2`, ... assigned
sequentially, each target the file's object path under `/3D/Objects/`,
each with the fixed 3D-model type. -/
def relsSpec (models : List String) : List Rel :=
  ((List.range models.length).zip models).map
    (fun q => ⟨"/3D/Objects/" ++ q.2, "rel-" ++ toString (q.1 + 1), relType⟩)

theorem relsLoop_eq : ∀ (models : List String) (n : Nat),
    relsLoop n models = ((List.range models.length).zip models).map
      (fun q => ⟨"/3D/Objects/" ++ q.2, "rel-" ++ toString (q.1 + n), relType⟩) := by
  intro models
  induction models with
  | nil => intro n; rfl
  | cons m rest ih =>
    intro n
    show (⟨"/3D/Objects/" ++ m, "rel-" ++ toString n, relType⟩ : Rel) ::
        relsLoop (n + 1) rest = _
    rw [ih (n + 1), List.length_cons, List.range_succ_eq_map,
      List.zip_cons_cons, List.map_cons, List.zip_map_left, List.map_map]
    congr 1
    · rw [Nat.zero_add]
    · apply List.map_congr_left
      intro q _
      have harg : q.1 + (n + 1) = q.1 + 1 + n := by omega
      simp [Prod.map, Nat.succ_eq_add_one, harg]

theorem string_append_left_cancel {a b c : String} (h : a ++ b = a ++ c) :
    b = c := by
  apply String.ext
  have h2 := congrArg String.data h
  rw [String.data_append, String.data_append] at h2
  exact List.append_cancel_left h2

theorem relsSpec_targets (models : List String) :
    (relsSpec models).map Rel.target =
      models.map (fun m => "/3D/Objects/" ++ m) := by
  unfold relsSpec
  rw [List.map_map]
  have hsnd : List.map Prod.snd ((List.range models.length).zip models) = models :=
    List.map_snd_zip _ _ (by simp [List.length_range])
  calc ((List.range models.length).zip models).map
        (Rel.target ∘ fun q => (⟨"/3D/Objects/" ++ q.2, "rel-" ++ toString (q.1 + 1), relType⟩ : Rel))
      = ((List.range models.length).zip models).map
          ((fun m => "/3D/Objects/" ++ m) ∘ Prod.snd) := rfl
    _ = (List.map Prod.snd ((List.range models.length).zip models)).map
          (fun m => "/3D/Objects/" ++ m) := by rw [List.map_map]
    _ = models.map (fun m => "/3D/Objects/" ++ m) := by rw [hsnd]

/-- C6: for a run writing K distinct model files, the output
relationships document contains exactly K relationship entries — the
cloned skeleton contributes none — which are exactly the spec's entries:
ids assigned sequentially `rel-1`, `rel-2`, ..., each entry's target
`/3D/Objects/<file>` pointing at that file's object path, all targets
distinct, and every entry carrying the fixed 3D-model relationship
type. -/
theorem claim_C6 (models : List String) (hnd : models.Nodup) :
    buildRels models = relsSpec models ∧
    (buildRels models).length = models.length ∧
    ((buildRels models).map Rel.target).Nodup ∧
    (∀ r ∈ buildRels models, r.type = relType) := by
  have heq : buildRels models = relsSpec models := by
    show relsTemplate ++ relsLoop 1 models = relsSpec models
    rw [relsLoop_eq models 1]
    rfl
  refine ⟨heq, ?_, ?_, ?_⟩
  · rw [heq]
    unfold relsSpec
    simp [List.length_zip, List.length_range]
  · rw [heq, relsSpec_targets]
    refine List.Nodup.map ?_ hnd
    intro x y hxy
    exact string_append_left_cancel hxy
  · intro r hr
    rw [heq] at hr
    obtain ⟨q, _, hq⟩ := List.mem_map.mp hr
    rw [← hq]

theorem claim_C6_witness :
    (["plate_1.model", "plate_2.model"] : List String).Nodup ∧
    (buildRels ["plate_1.model", "plate_2.model"] =
        relsSpec ["plate_1.model", "plate_2.model"] ∧
      (buildRels ["plate_1.model", "plate_2.model"]).length =
        (["plate_1.model", "plate_2.model"] : List String).length ∧
      ((buildRels ["plate_1.model", "plate_2.model"]).map Rel.target).Nodup ∧
      (∀ r ∈ buildRels ["plate_1.model", "plate_2.model"], r.type = relType)) :=
  ⟨by decide, claim_C6 ["plate_1.model", "plate_2.model"] (by decide)⟩

end B2P
